import Mathlib

/-!
Formal model of the core of the kudo operator-packaging tool: package
parsing, validation and compilation (`pkg/kudoctl/packages/package.go`)
and plan-status selection for a running instance.

Go machinery is embedded as follows: Go strings are Lean `String`s (with
character-level operations on `List Char` where path splitting matters),
Go maps are association lists with last-write-wins assignment, Go
`(value, error)` multi-returns are pairs of `Option`s or `Except`, and
Go's `strconv.ParseBool`, `strings.Split`, `strings.HasSuffix` and
`regexp.Match` are embedded explicitly below.
-/

namespace Kudo

/-! ### Go standard-library embeddings -/

/-- Go `strconv.ParseBool`: accepts exactly the twelve documented
literals; anything else is an error (`none`). -/
def strconvParseBool (s : String) : Option Bool :=
  if s = "1" ∨ s = "t" ∨ s = "T" ∨ s = "true" ∨ s = "TRUE" ∨ s = "True" then some true
  else if s = "0" ∨ s = "f" ∨ s = "F" ∨ s = "false" ∨ s = "FALSE" ∨ s = "False" then some false
  else none

/-- Lookup in an association list, modelling Go map indexing `m[k]` in
its two-result form (`none` is Go's missing-key case). -/
def mapLookup (m : List (String × String)) (k : String) : Option String :=
  match m with
  | [] => none
  | (k', v) :: rest => if k' = k then some v else mapLookup rest k

/-- Go map indexing used as a plain expression: yields the zero value
`""` when the key is absent. -/
def mapIndex (m : List (String × String)) (k : String) : String :=
  (mapLookup m k).getD ""

/-- Go map assignment `m[k] = v`: replaces the binding of `k` when
present, otherwise appends it. -/
def mapInsert (m : List (String × String)) (k v : String) : List (String × String) :=
  match m with
  | [] => [(k, v)]
  | (k', v') :: rest => if k' = k then (k, v) :: rest else (k', v') :: mapInsert rest k v

/-- The pattern `pat` occurs in `s` at position `i`. -/
def occursAt (pat s : List Char) (i : Nat) : Bool :=
  pat.isPrefixOf (s.drop i)

/-- Go `strings.Index(s, sep)`: position of the first occurrence of
`sep` in `s`, `none` when there is none. -/
def goIndex (sep : List Char) : List Char → Option Nat
  | [] => if sep.isPrefixOf ([] : List Char) then some 0 else none
  | c :: rest =>
    if sep.isPrefixOf (c :: rest) then some 0
    else (goIndex sep rest).map (· + 1)

/-- Fuelled splitting loop of Go `strings.Split(s, sep)` for a non-empty
`sep`: repeatedly cut at the first occurrence of `sep`. Every cut
strictly shortens the rest, so `s.length + 1` fuel is always enough. -/
def goSplitFuel (sep : List Char) : Nat → List Char → List (List Char)
  | 0, s => [s]
  | fuel + 1, s =>
    match goIndex sep s with
    | none => [s]
    | some i => s.take i :: goSplitFuel sep fuel (s.drop (i + sep.length))

/-- Go `strings.Split(s, sep)` for a non-empty `sep`. -/
def goSplit (sep s : List Char) : List (List Char) :=
  goSplitFuel sep (s.length + 1) s

/-- Go `strings.HasSuffix`. -/
def goHasSuffix (s suffix : String) : Bool :=
  suffix.toList.isSuffixOf s.toList

/-- The templates-directory marker `"templates/"` both the classifying
regular expression and the key derivation split on. -/
def templatesMarker : List Char := "templates/".toList

/-- The template-file test `regexp.Match("templates/.*.yaml", path)`: an
unanchored match is an occurrence of `"templates/"` at some position `p`
followed, after at least one character, by an occurrence of `"yaml"` at
some `q ≥ p + 11`, every character strictly between the two literals
matching `.` (any character except newline). -/
def matchesTemplateRegex (s : List Char) : Bool :=
  (List.range (s.length + 1)).any fun p =>
    occursAt templatesMarker s p &&
    ((List.range (s.length + 1)).any fun q =>
      decide (p + 11 ≤ q) && occursAt "yaml".toList s q &&
      ((s.drop (p + 10)).take (q - (p + 10))).all fun c => c != '\n')

/-! ### Plan status model (`pkg/apis/kudo/v1alpha1`) -/

/-- Execution state of a plan, phase or step. -/
inductive ExecutionStatus where
  | ExecutionNeverRun
  | ExecutionInProgress
  | ExecutionComplete
deriving DecidableEq, Repr

export ExecutionStatus (ExecutionNeverRun ExecutionInProgress ExecutionComplete)

structure StepStatus where
  Name : String
  Status : ExecutionStatus
deriving DecidableEq, Repr

structure PhaseStatus where
  Name : String
  Status : ExecutionStatus
  Steps : List StepStatus
deriving DecidableEq, Repr

/-- Status of one plan; `LastFinishedRun` models the `metav1.Time`
timestamp as a natural number, `0` meaning never finished. -/
structure PlanStatus where
  Name : String
  Status : ExecutionStatus
  Phases : List PhaseStatus
  LastFinishedRun : Nat := 0
deriving DecidableEq, Repr

/-- Modelled from the spec: `p` is preferred over `q` among complete
plans — strictly later last-finished time (strict greater-than), or
equal time and lexically smaller plan name (the spec's deterministic
tie-break). Part of the spec-modelled selector below. -/
def preferredOver (p q : PlanStatus) : Bool :=
  decide (q.LastFinishedRun < p.LastFinishedRun) ||
    (decide (p.LastFinishedRun = q.LastFinishedRun) && decide (p.Name < q.Name))

/-- Modelled from the spec: a complete plan `p` displaces the best
complete plan found so far when it is preferred over it. Part of the
spec-modelled selector. -/
def pickBetter (p : PlanStatus) : Option PlanStatus → Option PlanStatus
  | none => some p
  | some b => if preferredOver p b then some p else some b

/-- Modelled from the spec: among the given plans, the complete one with
the latest last-finished time, ties broken by lexically smallest name;
`none` when no plan is complete. Part of the spec-modelled selector. -/
def pickComplete : List PlanStatus → Option PlanStatus
  | [] => none
  | p :: rest =>
    if p.Status = ExecutionComplete then pickBetter p (pickComplete rest)
    else pickComplete rest

/-- Modelled from the spec: the method `Instance.GetLastExecutedPlanStatus`
of package `v1alpha1` is not part of the visible source (only its test
is), so the selector follows §4.6 of the spec: (1) if any plan is
in-progress, return an in-progress plan — the choice among several is
implementation-defined, here the first in the traversal order of the
map, represented as an association list; (2) otherwise return the
complete plan with the latest `LastFinishedRun` under strict
greater-than comparison, ties broken by lexically smallest plan name;
(3) otherwise `none`. -/
def GetLastExecutedPlanStatus (planStatus : List (String × PlanStatus)) : Option PlanStatus :=
  match (planStatus.map Prod.snd).find?
      (fun p => decide (p.Status = ExecutionInProgress)) with
  | some p => some p
  | none => pickComplete (planStatus.map Prod.snd)

/-! ### Package model (`pkg/kudoctl/packages/package.go`) -/

def operatorFileName : String := "operator.yaml"

def paramsFileName : String := "params.yaml"

def apiVersion : String := "kudo.dev/v1alpha1"

/-- `kudo.OperatorLabel` from `pkg/util/kudo` (external to the visible
source; its value appears in the client code's documentation comment). -/
def OperatorLabel : String := "kudo.dev/operator"

/-- `v1alpha1.Maintainer` (external to the visible source): treated as
an uninterpreted string. -/
abbrev Maintainer := String

/-- `v1alpha1.Plan` (external to the visible source): its contents are
never inspected by this core, so it is an uninterpreted unit value. -/
abbrev Plan := Unit

/-- `v1alpha1.Parameter`. -/
structure Parameter where
  Name : String
  Description : String
  Default : Option String
  Trigger : String
  Required : Bool
  DisplayName : String
deriving DecidableEq, Repr

/-- `v1alpha1.ResourceTaskSpec`. -/
structure ResourceTaskSpec where
  Resources : List String
deriving DecidableEq, Repr

/-- `v1alpha1.TaskSpec`. -/
structure TaskSpec where
  ResourceTaskSpec : ResourceTaskSpec
deriving DecidableEq, Repr

/-- `v1alpha1.Task`. -/
structure Task where
  Name : String
  Kind : String
  Spec : TaskSpec
deriving DecidableEq, Repr

/-- Task-kind constant from `pkg/engine/task` (external to the visible
source); only its distinctness from the others matters here. -/
def ApplyTaskKind : String := "Apply"

/-- Task-kind constant from `pkg/engine/task` (external to the visible
source). -/
def DeleteTaskKind : String := "Delete"

/-- Task-kind constant from `pkg/engine/task` (external to the visible
source). -/
def DummyTaskKind : String := "Dummy"

/-- `packages.Operator`, the representation of the operator YAML file. -/
structure Operator where
  Name : String := ""
  Description : String := ""
  Version : String := ""
  AppVersion : String := ""
  KUDOVersion : String := ""
  KubernetesVersion : String := ""
  Maintainers : List Maintainer := []
  URL : String := ""
  Tasks : List Task := []
  Plans : List (String × Plan) := []
deriving DecidableEq, Repr

/-- `packages.PackageFiles`: the raw package bundle. A `none` in
`Operator` or `Params` models the corresponding nil pointer / nil slice
in Go. -/
structure PackageFiles where
  Templates : List (String × String)
  Operator : Option Operator
  Params : Option (List Parameter)
deriving DecidableEq, Repr

/-- `packages.newPackageFiles`: only the template map is initialized;
operator and parameters stay nil. -/
def newPackageFiles : PackageFiles :=
  { Templates := [], Operator := none, Params := none }

/-- The body of the parameters loop of `parsePackageFile`: builds one
`v1alpha1.Parameter` from one entry of the decoded parameters mapping.
Missing keys behave like Go map indexing (zero value `""`), `required`
defaults to `true`, and a `required` value that `strconv.ParseBool`
rejects is a hard error (the Go error wraps the strconv error; only the
wrapping message is modelled). -/
def paramFromEntry (paramName : String) (param : List (String × String)) :
    Except String Parameter :=
  let mk : Bool → Parameter := fun required =>
    { Name := paramName
      Description := mapIndex param "description"
      Default := mapLookup param "default"
      Trigger := mapIndex param "trigger"
      Required := required
      DisplayName := mapIndex param "displayName" }
  match mapLookup param "required" with
  | none => .ok (mk true)
  | some v =>
    match strconvParseBool v with
    | none =>
      .error ("failed parsing required field from parameter " ++ paramName ++
        ". cannot convert " ++ v ++ " to bool")
    | some parsed => .ok (mk parsed)

/-- The parameters branch of `parsePackageFile` after YAML decoding:
iterates the decoded two-level mapping, collecting the built parameters
and aborting on the first malformed `required` value. -/
def parseParams : List (String × List (String × String)) →
    Except String (List Parameter)
  | [] => .ok []
  | (paramName, param) :: rest =>
    match paramFromEntry paramName param with
    | .error e => .error e
    | .ok r =>
      match parseParams rest with
      | .error e => .error e
      | .ok rs => .ok (r :: rs)

/-- The template branch of `parsePackageFile`:
`strings.Split(filePath, "templates/")` and take the last part. -/
def templateKey (filePath : String) : String :=
  ((goSplit templatesMarker filePath.toList).getLastD []).asString

/-- `isOperatorFile` inside `parsePackageFile`. -/
def isOperatorFile (name : String) : Bool :=
  goHasSuffix name operatorFileName

/-- `isTemplateFile` inside `parsePackageFile`. -/
def isTemplateFile (name : String) : Bool :=
  matchesTemplateRegex name.toList

/-- `isParametersFile` inside `parsePackageFile`. -/
def isParametersFile (name : String) : Bool :=
  goHasSuffix name paramsFileName

/-- The external YAML decoders (`sigs.k8s.io/yaml`): how raw bytes
decode into the operator structure and into the two-level parameters
mapping. -/
structure YamlDecode where
  operatorOf : String → Except String Operator
  paramsOf : String → Except String (List (String × List (String × String)))

/-- `packages.parsePackageFile`. Classification is decided in priority
order (operator suffix, template regex, parameters suffix); an
unrecognized file is a hard error. `yaml` supplies the external
unmarshalling steps. -/
def parsePackageFile (yaml : YamlDecode) (filePath : String) (fileBytes : String)
    (currentPackage : PackageFiles) : Except String PackageFiles :=
  if isOperatorFile filePath then
    match yaml.operatorOf fileBytes with
    | .error e => .error ("failed to unmarshal operator file: " ++ e)
    | .ok op => .ok { currentPackage with Operator := some op }
  else if isTemplateFile filePath then
    .ok { currentPackage with
            Templates := mapInsert currentPackage.Templates (templateKey filePath) fileBytes }
  else if isParametersFile filePath then
    match yaml.paramsOf fileBytes with
    | .error e => .error ("failed to unmarshal parameters file: " ++ filePath ++ ": " ++ e)
    | .ok params =>
      match parseParams params with
      | .error e => .error e
      | .ok paramsStruct => .ok { currentPackage with Params := some paramsStruct }
  else
    .error ("unexpected file when reading package from filesystem: " ++ filePath)

/-- `packages.validateTask`: for the two resource-referencing task kinds
every referenced resource must be a template key; each missing one
yields one violation string naming the task and the template. The dummy
kind and unknown kinds reference no resources (the unknown-kind log line
has no observable effect modelled here). -/
def validateTask (t : Task) (templates : List (String × String)) : List String :=
  let resources : List String :=
    if t.Kind = ApplyTaskKind then t.Spec.ResourceTaskSpec.Resources
    else if t.Kind = DeleteTaskKind then t.Spec.ResourceTaskSpec.Resources
    else []
  resources.filterMap fun res =>
    if mapLookup templates res = none then
      some ("task " ++ t.Name ++ " missing template: " ++ res)
    else none

structure TypeMeta where
  Kind : String
  APIVersion : String
deriving DecidableEq, Repr

structure ObjectMeta where
  Name : String
  Labels : List (String × String)
deriving DecidableEq, Repr

structure ObjectReference where
  Name : String := ""
  Kind : String := ""
deriving DecidableEq, Repr

/-- `v1alpha1.OperatorSpec` (the fields `getCRDs` sets). -/
structure OperatorSpec where
  Description : String
  KudoVersion : String
  KubernetesVersion : String
  Maintainers : List Maintainer
  URL : String
deriving DecidableEq, Repr

structure OperatorStatus where
deriving DecidableEq, Repr

/-- `v1alpha1.Operator`, the CRD object (named `OperatorCRD` here to
keep it apart from the package-file `Operator` structure). -/
structure OperatorCRD where
  TypeMeta : TypeMeta
  ObjectMeta : ObjectMeta
  Spec : OperatorSpec
  Status : OperatorStatus
deriving DecidableEq, Repr

/-- `v1alpha1.OperatorVersionSpec` (the fields `getCRDs` sets);
`UpgradableFrom`, in Go a list of operator versions and always nil
here, is kept as an option on `Unit`. -/
structure OperatorVersionSpec where
  Operator : ObjectReference
  Version : String
  Templates : List (String × String)
  Tasks : List Task
  Parameters : List Parameter
  Plans : List (String × Plan)
  UpgradableFrom : Option Unit
deriving DecidableEq, Repr

structure OperatorVersionStatus where
deriving DecidableEq, Repr

/-- `v1alpha1.OperatorVersion`, the CRD object. -/
structure OperatorVersionCRD where
  TypeMeta : TypeMeta
  ObjectMeta : ObjectMeta
  Spec : OperatorVersionSpec
  Status : OperatorVersionStatus
deriving DecidableEq, Repr

/-- `v1alpha1.InstanceSpec` (the fields `getCRDs` sets). -/
structure InstanceSpec where
  OperatorVersion : ObjectReference
  Parameters : List (String × String) := []
deriving DecidableEq, Repr

/-- `v1alpha1.InstanceStatus`: holds the plan-status map read by the
selector. -/
structure InstanceStatus where
  PlanStatus : List (String × PlanStatus) := []
deriving DecidableEq, Repr

/-- `v1alpha1.Instance`, the CRD object. -/
structure InstanceCRD where
  TypeMeta : TypeMeta
  ObjectMeta : ObjectMeta
  Spec : InstanceSpec
  Status : InstanceStatus
deriving DecidableEq, Repr

/-- `packages.PackageCRDs`. -/
structure PackageCRDs where
  Operator : OperatorCRD
  OperatorVersion : OperatorVersionCRD
  Instance : InstanceCRD
deriving DecidableEq, Repr

/-- `PackageFiles.getCRDs`. Go returns `(*PackageCRDs, error)`; both
components are kept, `none` standing for Go's nil. The 6-character
random instance-name suffix `rand.String(6)` is passed in as
`randSuffix`. -/
def getCRDs (p : PackageFiles) (randSuffix : String) :
    Option PackageCRDs × Option String :=
  match p.Operator with
  | none => (none, some "operator.yaml file is missing")
  | some op =>
    match p.Params with
    | none => (none, some "params.yaml file is missing")
    | some params =>
      let errs := op.Tasks.foldl (fun acc tt => acc ++ validateTask tt p.Templates) []
      if errs.length ≠ 0 then
        (none, some (String.intercalate "\n" errs))
      else
        let operator : OperatorCRD := {
          TypeMeta := { Kind := "Operator", APIVersion := apiVersion }
          ObjectMeta := { Name := op.Name, Labels := [("controller-tools.k8s.io", "1.0")] }
          Spec := {
            Description := op.Description
            KudoVersion := op.KUDOVersion
            KubernetesVersion := op.KubernetesVersion
            Maintainers := op.Maintainers
            URL := op.URL }
          Status := {} }
        let fv : OperatorVersionCRD := {
          TypeMeta := { Kind := "OperatorVersion", APIVersion := apiVersion }
          ObjectMeta := {
            Name := op.Name ++ "-" ++ op.Version
            Labels := [("controller-tools.k8s.io", "1.0")] }
          Spec := {
            Operator := { Name := op.Name, Kind := "Operator" }
            Version := op.Version
            Templates := p.Templates
            Tasks := op.Tasks
            Parameters := params
            Plans := op.Plans
            UpgradableFrom := none }
          Status := {} }
        let instanceObj : InstanceCRD := {
          TypeMeta := { Kind := "Instance", APIVersion := apiVersion }
          ObjectMeta := {
            Name := op.Name ++ "-" ++ randSuffix
            Labels := [("controller-tools.k8s.io", "1.0"), (OperatorLabel, op.Name)] }
          Spec := { OperatorVersion := { Name := op.Name ++ "-" ++ op.Version } }
          Status := {} }
        (some { Operator := operator, OperatorVersion := fv, Instance := instanceObj }, none)

/-- `packages.PackageFilesDigest`. -/
structure PackageFilesDigest where
  PkgFiles : PackageFiles
  Digest : String
deriving DecidableEq, Repr

/-- `packages.mapPaths`: applies `f` to every path, keeps the successful
results in input order and, for each failing path, emits the warning
line `fmt.Printf` would print. The second component is the sequence of
emitted warnings. -/
def mapPaths (f : String → Except String PackageFilesDigest) (paths : List String) :
    List PackageFilesDigest × List String :=
  paths.foldl
    (fun (acc : List PackageFilesDigest × List String) path =>
      match f path with
      | .error _ => (acc.1, acc.2 ++ ["WARNING: operator: " ++ path ++ " is invalid"])
      | .ok op => (acc.1 ++ [op], acc.2))
    ([], [])

/-! ### Concrete fixtures used by the witnesses -/

/-- A task referencing a template that is never provided; exercises the
check order of `getCRDs` in the C9 witness. -/
def c9BadTask : Task :=
  { Name := "t1", Kind := ApplyTaskKind,
    Spec := { ResourceTaskSpec := { Resources := ["missing.yaml"] } } }

/-- A bundle with a bad task and the given parameter list; exercises the
check order of `getCRDs` in the C9 witness. -/
def c9Pkg (ps : Option (List Parameter)) : PackageFiles :=
  { Templates := [], Operator := some { Name := "op", Tasks := [c9BadTask] }, Params := ps }

/-- An apply task whose referenced template is missing; first half of
the C3 witness bundle. -/
def c3Task1 : Task :=
  { Name := "t1", Kind := ApplyTaskKind,
    Spec := { ResourceTaskSpec := { Resources := ["a.yaml"] } } }

/-- A delete task whose referenced template is missing; second half of
the C3 witness bundle. -/
def c3Task2 : Task :=
  { Name := "t2", Kind := DeleteTaskKind,
    Spec := { ResourceTaskSpec := { Resources := ["b.yaml"] } } }

/-- A bundle with two tasks, each referencing one missing template. -/
def c3Pkg : PackageFiles :=
  { Templates := [], Operator := some { Name := "op", Tasks := [c3Task1, c3Task2] },
    Params := some [] }

/-- The in-progress plan of the `plan in progress` test case. -/
def c1PlanInProgress : PlanStatus :=
  ⟨"test", ExecutionInProgress, [⟨"phase", ExecutionInProgress,
    [⟨"step", ExecutionInProgress⟩]⟩], 0⟩

/-- The complete plan of the `plan in progress` test case. -/
def c1PlanComplete : PlanStatus :=
  ⟨"test2", ExecutionComplete, [⟨"phase", ExecutionComplete,
    [⟨"step", ExecutionComplete⟩]⟩], 7⟩

/-- The never-run plan of the `no plan ever run` test case. -/
def c8PlanNeverRun : PlanStatus :=
  ⟨"test", ExecutionNeverRun, [⟨"phase", ExecutionNeverRun,
    [⟨"step", ExecutionNeverRun⟩]⟩], 0⟩

/-- A YAML decoder stub for exercising the template branch of
`parsePackageFile`, which never consults it. -/
def c6Yaml : YamlDecode :=
  ⟨fun _ => Except.error "unused", fun _ => Except.error "unused"⟩

/-- A YAML decoder whose parameters decoding yields one entry with a
malformed `required` value. -/
def c5Yaml : YamlDecode :=
  ⟨fun _ => Except.error "unused", fun _ => Except.ok [("q", [("required", "maybe")])]⟩

/-- The earlier-finished complete plan of the `last executed plan` test
case. -/
def c2PlanEarly : PlanStatus :=
  ⟨"test", ExecutionComplete, [⟨"phase", ExecutionComplete,
    [⟨"step", ExecutionComplete⟩]⟩], 100⟩

/-- The later-finished complete plan of the `last executed plan` test
case. -/
def c2PlanLate : PlanStatus :=
  ⟨"test2", ExecutionComplete, [⟨"phase", ExecutionComplete,
    [⟨"step", ExecutionComplete⟩]⟩], 200⟩

/-! ### Helper lemmas -/

/-- The violation-aggregation loop of `getCRDs` in closed form. -/
lemma validate_foldl_eq (ts : List Task) (tpl : List (String × String)) (acc : List String) :
    ts.foldl (fun acc tt => acc ++ validateTask tt tpl) acc =
      acc ++ (ts.map (fun tt => validateTask tt tpl)).flatten := by
  induction ts generalizing acc with
  | nil => simp
  | cons t ts ih => simp [ih]

/-! ### Claims -/

/-- C4: `getCRDs` fails with a distinct error when the operator metadata
is absent (nil) and with a different distinct error when the parameter
list is nil; a non-nil empty parameter list passes both preconditions
and (absent task violations) compilation succeeds. -/
theorem c4_getCRDs_preconditions :
    (∀ (p : PackageFiles) (rs : String), p.Operator = none →
      getCRDs p rs = (none, some "operator.yaml file is missing")) ∧
    (∀ (p : PackageFiles) (op : Operator) (rs : String),
      p.Operator = some op → p.Params = none →
      getCRDs p rs = (none, some "params.yaml file is missing")) ∧
    ("operator.yaml file is missing" : String) ≠ "params.yaml file is missing" ∧
    (∀ (p : PackageFiles) (op : Operator) (rs : String),
      p.Operator = some op → p.Params = some [] →
      (∀ t ∈ op.Tasks, validateTask t p.Templates = []) →
      (getCRDs p rs).2 = none ∧ ((getCRDs p rs).1).isSome = true) := by
  refine ⟨?_, ?_, ?_, ?_⟩
  · intro p rs h
    simp only [getCRDs, h]
  · intro p op rs h1 h2
    simp only [getCRDs, h1, h2]
  · decide
  · intro p op rs h1 h2 hv
    have hflat : (op.Tasks.map (fun tt => validateTask tt p.Templates)).flatten = [] := by
      refine List.flatten_eq_nil_iff.mpr ?_
      intro l hl
      obtain ⟨t, ht, rfl⟩ := List.mem_map.mp hl
      exact hv t ht
    simp only [getCRDs, h1, h2, validate_foldl_eq, List.nil_append, hflat]
    simp

/-- C4 witness: the three behaviours at concrete bundles. -/
theorem c4_witness :
    getCRDs { Templates := [], Operator := none, Params := none } "abc123" =
      (none, some "operator.yaml file is missing") ∧
    getCRDs { Templates := [], Operator := some { Name := "op" }, Params := none } "abc123" =
      (none, some "params.yaml file is missing") ∧
    (getCRDs { Templates := [], Operator := some { Name := "op" }, Params := some [] }
        "abc123").2 = none := by
  refine ⟨c4_getCRDs_preconditions.1 _ "abc123" rfl,
    c4_getCRDs_preconditions.2.1 _ { Name := "op" } "abc123" rfl rfl,
    (c4_getCRDs_preconditions.2.2.2 _ { Name := "op" } "abc123" rfl rfl ?_).1⟩
  intro t ht
  exact absurd ht (List.not_mem_nil t)

/-- C9: `getCRDs` checks completeness before referential validity — a
nil operator wins over everything, a nil parameter list wins over task
validation — and an error always comes with a nil resource set. -/
theorem c9_getCRDs_check_order :
    (∀ (p : PackageFiles) (rs : String), p.Operator = none →
      getCRDs p rs = (none, some "operator.yaml file is missing")) ∧
    (∀ (p : PackageFiles) (op : Operator) (rs : String),
      p.Operator = some op → p.Params = none →
      getCRDs p rs = (none, some "params.yaml file is missing")) ∧
    (∀ (p : PackageFiles) (rs : String),
      ((getCRDs p rs).2).isSome = true → (getCRDs p rs).1 = none) := by
  refine ⟨?_, ?_, ?_⟩
  · intro p rs h
    simp only [getCRDs, h]
  · intro p op rs h1 h2
    simp only [getCRDs, h1, h2]
  · intro p rs h
    rcases hop : p.Operator with _ | op
    · simp only [getCRDs, hop]
    · rcases hps : p.Params with _ | ps
      · simp only [getCRDs, hop, hps]
      · by_cases hlen :
          (op.Tasks.foldl (fun acc tt => acc ++ validateTask tt p.Templates) []).length ≠ 0
        · simp only [getCRDs, hop, hps, if_pos hlen]
        · simp only [getCRDs, hop, hps, if_neg hlen] at h
          simp at h

/-- C9 witness: the operator-missing error wins even when the parameter
list is also nil, the parameter error wins over a task violation, and a
failing compile yields no resource set. -/
theorem c9_witness :
    getCRDs { Templates := [], Operator := none, Params := none } "s" =
      (none, some "operator.yaml file is missing") ∧
    getCRDs (c9Pkg none) "s" = (none, some "params.yaml file is missing") ∧
    (getCRDs (c9Pkg (some [])) "s").1 = none := by
  refine ⟨c9_getCRDs_check_order.1 _ "s" rfl,
    c9_getCRDs_check_order.2.1 _ _ "s" rfl rfl,
    c9_getCRDs_check_order.2.2 _ "s" (by decide)⟩

/-- C5: a parameters-file entry without a `required` key compiles to a
parameter with `Required = true`; an entry whose `required` value
`strconv.ParseBool` rejects makes the parameters parse — and with it
`parsePackageFile` on the parameters file — fail. -/
theorem c5_required_parsing :
    (∀ (n : String) (e : List (String × String)), mapLookup e "required" = none →
      ∃ r, paramFromEntry n e = Except.ok r ∧ r.Required = true) ∧
    (∀ (entries : List (String × List (String × String))) (n : String)
        (e : List (String × String)) (v : String),
      (n, e) ∈ entries → mapLookup e "required" = some v → strconvParseBool v = none →
      ∃ msg, parseParams entries = Except.error msg) ∧
    (∀ (yaml : YamlDecode) (path bytes : String) (pkg : PackageFiles)
        (entries : List (String × List (String × String))) (n : String)
        (e : List (String × String)) (v : String),
      isOperatorFile path = false → isTemplateFile path = false →
      isParametersFile path = true →
      yaml.paramsOf bytes = Except.ok entries →
      (n, e) ∈ entries → mapLookup e "required" = some v → strconvParseBool v = none →
      ∃ msg, parsePackageFile yaml path bytes pkg = Except.error msg) := by
  have hfail : ∀ (entries : List (String × List (String × String))) (n : String)
      (e : List (String × String)) (v : String),
      (n, e) ∈ entries → mapLookup e "required" = some v → strconvParseBool v = none →
      ∃ msg, parseParams entries = Except.error msg := by
    intro entries
    induction entries with
    | nil =>
      intro n e v hmem
      exact absurd hmem (List.not_mem_nil _)
    | cons hd tl ih =>
      intro n e v hmem hreq hparse
      obtain ⟨n', e'⟩ := hd
      rcases List.mem_cons.mp hmem with heq | htl
      · rw [Prod.mk.injEq] at heq
        obtain ⟨h1, h2⟩ := heq
        subst h1
        subst h2
        simp only [parseParams, paramFromEntry, hreq, hparse]
        exact ⟨_, rfl⟩
      · obtain ⟨msg, hmsg⟩ := ih n e v htl hreq hparse
        simp only [parseParams]
        cases hpe : paramFromEntry n' e' with
        | error e₀ => exact ⟨_, rfl⟩
        | ok r =>
          rw [hmsg]
          exact ⟨_, rfl⟩
  refine ⟨?_, hfail, ?_⟩
  · intro n e h
    refine ⟨⟨n, mapIndex e "description", mapLookup e "default",
      mapIndex e "trigger", true, mapIndex e "displayName"⟩, ?_, rfl⟩
    simp only [paramFromEntry, h]
  · intro yaml path bytes pkg entries n e v hop htp hpp hdec hmem hreq hpb
    obtain ⟨msg, hmsg⟩ := hfail entries n e v hmem hreq hpb
    refine ⟨msg, ?_⟩
    simp [parsePackageFile, hop, htp, hpp, hdec, hmsg]

/-- C5 witness: an entry omitting `required` compiles with
`Required = true`; an entry with `required: maybe` fails the parameters
parse and the whole package file parse. -/
theorem c5_witness :
    (∃ r, paramFromEntry "p" [("description", "d")] = Except.ok r ∧ r.Required = true) ∧
    (∃ msg, parseParams [("q", [("required", "maybe")])] = Except.error msg) ∧
    (∃ msg, parsePackageFile c5Yaml "params.yaml" "raw"
      { Templates := [], Operator := none, Params := none } = Except.error msg) := by
  refine ⟨c5_required_parsing.1 "p" [("description", "d")] (by decide),
    c5_required_parsing.2.1 [("q", [("required", "maybe")])] "q" [("required", "maybe")]
      "maybe" (List.mem_singleton.mpr rfl) (by decide) (by decide),
    c5_required_parsing.2.2 c5Yaml "params.yaml" "raw"
      { Templates := [], Operator := none, Params := none }
      [("q", [("required", "maybe")])] "q" [("required", "maybe")] "maybe"
      (by decide) (by decide) (by decide) rfl
      (List.mem_singleton.mpr rfl) (by decide) (by decide)⟩

/-- C10: a compiled parameter's `Default` is exactly the entry's
`default` binding — `some` exactly when the key is present, including a
present empty-string value. -/
theorem c10_default_pointer (n : String) (e : List (String × String)) (r : Parameter)
    (h : paramFromEntry n e = Except.ok r) :
    r.Default = mapLookup e "default" := by
  rcases hreq : mapLookup e "required" with _ | v
  · simp only [paramFromEntry, hreq, Except.ok.injEq] at h
    subst h
    rfl
  · simp only [paramFromEntry, hreq] at h
    rcases hpb : strconvParseBool v with _ | parsed
    · rw [hpb] at h
      exact absurd h (by simp)
    · rw [hpb] at h
      simp only [Except.ok.injEq] at h
      subst h
      rfl

/-- C10 witness: a present empty-string `default` yields `some ""`; an
absent `default` key yields `none`. -/
theorem c10_witness :
    (∃ r, paramFromEntry "p" [("default", "")] = Except.ok r ∧ r.Default = some "") ∧
    (∃ r, paramFromEntry "q" [("description", "d")] = Except.ok r ∧ r.Default = none) := by
  constructor
  · exact ⟨⟨"p", "", some "", "", true, ""⟩, rfl,
      (c10_default_pointer "p" [("default", "")] ⟨"p", "", some "", "", true, ""⟩ rfl).trans
        (by decide)⟩
  · exact ⟨⟨"q", "d", none, "", true, ""⟩, rfl,
      (c10_default_pointer "q" [("description", "d")] ⟨"q", "d", none, "", true, ""⟩ rfl).trans
        (by decide)⟩

/-- Unfolding of the preference used by the complete-plan maximisation. -/
lemma preferredOver_true_iff (p q : PlanStatus) :
    preferredOver p q = true ↔
      q.LastFinishedRun < p.LastFinishedRun ∨
        (p.LastFinishedRun = q.LastFinishedRun ∧ p.Name < q.Name) := by
  simp [preferredOver]

/-- A plan fails to displace another exactly when its time is no later
and, on equal times, its name is lexically no smaller. -/
lemma preferredOver_false_iff (p q : PlanStatus) :
    preferredOver p q = false ↔
      p.LastFinishedRun ≤ q.LastFinishedRun ∧
        (p.LastFinishedRun = q.LastFinishedRun → q.Name ≤ p.Name) := by
  rw [Bool.eq_false_iff, Ne, preferredOver_true_iff]
  push_neg
  simp [not_lt]

/-- No plan displaces itself. -/
lemma preferredOver_self (p : PlanStatus) : preferredOver p p = false := by
  rw [preferredOver_false_iff]
  exact ⟨le_refl _, fun _ => le_refl _⟩

/-- If `q` does not displace `b` and `p` strictly displaces `b`, then
`q` does not displace `p`. -/
lemma preferredOver_false_of (q b p : PlanStatus)
    (h1 : preferredOver q b = false) (h2 : preferredOver p b = true) :
    preferredOver q p = false := by
  rw [preferredOver_false_iff] at h1 ⊢
  rw [preferredOver_true_iff] at h2
  obtain ⟨h1a, h1b⟩ := h1
  rcases h2 with hlt | ⟨heq, hname⟩
  · refine ⟨by omega, fun he => absurd he (by omega)⟩
  · refine ⟨by omega, fun he => ?_⟩
    have hqb : q.LastFinishedRun = b.LastFinishedRun := by omega
    exact le_trans (le_of_lt hname) (h1b hqb)

/-- A `none` from the complete-plan maximisation means no plan in the
list is complete. -/
lemma pickComplete_none_no_complete :
    ∀ plans, pickComplete plans = none →
      ∀ q ∈ plans, q.Status ≠ ExecutionComplete := by
  intro plans
  induction plans with
  | nil =>
    intro _ q hq
    exact absurd hq (List.not_mem_nil q)
  | cons p rest ih =>
    intro h q hq
    by_cases hp : p.Status = ExecutionComplete
    · exfalso
      rcases hrest : pickComplete rest with _ | b
      · simp only [pickComplete, if_pos hp, hrest, pickBetter] at h
        exact Option.noConfusion h
      · simp only [pickComplete, if_pos hp, hrest, pickBetter] at h
        by_cases hpb : preferredOver p b = true
        · rw [if_pos hpb] at h
          exact Option.noConfusion h
        · rw [if_neg hpb] at h
          exact Option.noConfusion h
    · simp only [pickComplete, if_neg hp] at h
      rcases List.mem_cons.mp hq with rfl | hq'
      · exact hp
      · exact ih h q hq'

/-- Whatever the complete-plan maximisation returns is a complete member
of the list that no complete member displaces. -/
lemma pickComplete_sound :
    ∀ plans r, pickComplete plans = some r →
      r.Status = ExecutionComplete ∧ r ∈ plans ∧
        ∀ q ∈ plans, q.Status = ExecutionComplete → preferredOver q r = false := by
  intro plans
  induction plans with
  | nil =>
    intro r h
    exact Option.noConfusion h
  | cons p rest ih =>
    intro r h
    by_cases hp : p.Status = ExecutionComplete
    · rcases hrest : pickComplete rest with _ | b
      · simp only [pickComplete, if_pos hp, hrest, pickBetter] at h
        obtain rfl : p = r := Option.some.inj h
        refine ⟨hp, List.mem_cons_self _ _, ?_⟩
        intro q hq hqc
        rcases List.mem_cons.mp hq with rfl | hq'
        · exact preferredOver_self q
        · exact absurd hqc (pickComplete_none_no_complete rest hrest q hq')
      · simp only [pickComplete, if_pos hp, hrest, pickBetter] at h
        obtain ⟨hbc, hbm, hbmax⟩ := ih b hrest
        by_cases hpb : preferredOver p b = true
        · rw [if_pos hpb] at h
          obtain rfl : p = r := Option.some.inj h
          refine ⟨hp, List.mem_cons_self _ _, ?_⟩
          intro q hq hqc
          rcases List.mem_cons.mp hq with rfl | hq'
          · exact preferredOver_self q
          · exact preferredOver_false_of q b p (hbmax q hq' hqc) hpb
        · rw [if_neg hpb] at h
          obtain rfl : b = r := Option.some.inj h
          refine ⟨hbc, List.mem_cons_of_mem _ hbm, ?_⟩
          intro q hq hqc
          rcases List.mem_cons.mp hq with rfl | hq'
          · exact Bool.eq_false_iff.mpr hpb
          · exact hbmax q hq' hqc
    · simp only [pickComplete, if_neg hp] at h
      obtain ⟨hrc, hrm, hmax⟩ := ih r h
      refine ⟨hrc, List.mem_cons_of_mem _ hrm, ?_⟩
      intro q hq hqc
      rcases List.mem_cons.mp hq with rfl | hq'
      · exact absurd hqc hp
      · exact hmax q hq' hqc

/-- The complete-plan maximisation finds something whenever a complete
plan exists. -/
lemma pickComplete_isSome :
    ∀ plans, (∃ q ∈ plans, q.Status = ExecutionComplete) →
      (pickComplete plans).isSome = true := by
  intro plans
  induction plans with
  | nil =>
    rintro ⟨q, hq, _⟩
    exact absurd hq (List.not_mem_nil q)
  | cons p rest ih =>
    rintro ⟨q, hq, hqc⟩
    by_cases hp : p.Status = ExecutionComplete
    · rcases hrest : pickComplete rest with _ | b
      · simp only [pickComplete, if_pos hp, hrest, pickBetter]
        rfl
      · simp only [pickComplete, if_pos hp, hrest, pickBetter]
        by_cases hpb : preferredOver p b = true
        · rw [if_pos hpb]
          rfl
        · rw [if_neg hpb]
          rfl
    · simp only [pickComplete, if_neg hp]
      rcases List.mem_cons.mp hq with rfl | hq'
      · exact absurd hqc hp
      · exact ih ⟨q, hq', hqc⟩

/-- C1: with at least one in-progress plan in the map, the selector
returns an in-progress plan, whatever the timestamps of complete plans
are. -/
theorem c1_selector_in_progress (m : List (String × PlanStatus))
    (h : ∃ kp ∈ m, kp.2.Status = ExecutionInProgress) :
    ∃ r, GetLastExecutedPlanStatus m = some r ∧ r.Status = ExecutionInProgress := by
  obtain ⟨kp, hmem, hst⟩ := h
  have hex : ∃ x, x ∈ m.map Prod.snd ∧
      (decide (x.Status = ExecutionInProgress)) = true :=
    ⟨kp.2, List.mem_map.mpr ⟨kp, hmem, rfl⟩, by simp [hst]⟩
  obtain ⟨r, hr⟩ := Option.isSome_iff_exists.mp (List.find?_isSome.mpr hex)
  refine ⟨r, ?_, ?_⟩
  · simp only [GetLastExecutedPlanStatus, hr]
  · have := List.find?_some hr
    simpa using this

/-- C1 witness: the `plan in progress` test case — an in-progress plan
wins over a complete plan with a later timestamp. -/
theorem c1_witness :
    ∃ r, GetLastExecutedPlanStatus
        [("test", c1PlanInProgress), ("test2", c1PlanComplete)] = some r ∧
      r.Status = ExecutionInProgress :=
  c1_selector_in_progress _ ⟨("test", c1PlanInProgress), by decide, rfl⟩

/-- C2: with no in-progress plan and at least one complete plan, the
selector returns a complete plan from the map that strictly beats every
other complete plan on the last-finished timestamp, or ties it and has
the lexically smallest name. -/
theorem c2_selector_latest_complete (m : List (String × PlanStatus))
    (hnp : ∀ kp ∈ m, kp.2.Status ≠ ExecutionInProgress)
    (hc : ∃ kp ∈ m, kp.2.Status = ExecutionComplete) :
    ∃ r, GetLastExecutedPlanStatus m = some r ∧ r.Status = ExecutionComplete ∧
      (∃ kp ∈ m, kp.2 = r) ∧
      ∀ kp ∈ m, kp.2.Status = ExecutionComplete →
        kp.2.LastFinishedRun < r.LastFinishedRun ∨
          (kp.2.LastFinishedRun = r.LastFinishedRun ∧ r.Name ≤ kp.2.Name) := by
  have hfind : (m.map Prod.snd).find?
      (fun p => decide (p.Status = ExecutionInProgress)) = none := by
    apply List.find?_eq_none.mpr
    intro x hx
    obtain ⟨kp, hkp, rfl⟩ := List.mem_map.mp hx
    simp [hnp kp hkp]
  have hex : ∃ q ∈ m.map Prod.snd, q.Status = ExecutionComplete := by
    obtain ⟨kp, hkp, hkc⟩ := hc
    exact ⟨kp.2, List.mem_map.mpr ⟨kp, hkp, rfl⟩, hkc⟩
  obtain ⟨r, hr⟩ := Option.isSome_iff_exists.mp (pickComplete_isSome _ hex)
  obtain ⟨hrc, hrm, hmax⟩ := pickComplete_sound _ r hr
  refine ⟨r, ?_, hrc, ?_, ?_⟩
  · simp only [GetLastExecutedPlanStatus, hfind, hr]
  · obtain ⟨kp, hkp, heq⟩ := List.mem_map.mp hrm
    exact ⟨kp, hkp, heq⟩
  · intro kp hkp hkc
    have hq := hmax kp.2 (List.mem_map.mpr ⟨kp, hkp, rfl⟩) hkc
    rw [preferredOver_false_iff] at hq
    obtain ⟨ha, hb⟩ := hq
    rcases Nat.lt_or_ge kp.2.LastFinishedRun r.LastFinishedRun with h | h
    · exact Or.inl h
    · have heq : kp.2.LastFinishedRun = r.LastFinishedRun := Nat.le_antisymm ha h
      exact Or.inr ⟨heq, hb heq⟩

/-- C2 witness: the `last executed plan` test case — among two complete
plans the one finished later is selected. -/
theorem c2_witness :
    ∃ r, GetLastExecutedPlanStatus
        [("test", c2PlanEarly), ("test2", c2PlanLate)] = some r ∧
      r.Status = ExecutionComplete ∧
      (∃ kp ∈ [("test", c2PlanEarly), ("test2", c2PlanLate)], kp.2 = r) ∧
      ∀ kp ∈ [("test", c2PlanEarly), ("test2", c2PlanLate)],
        kp.2.Status = ExecutionComplete →
        kp.2.LastFinishedRun < r.LastFinishedRun ∨
          (kp.2.LastFinishedRun = r.LastFinishedRun ∧ r.Name ≤ kp.2.Name) :=
  c2_selector_latest_complete _ (by decide)
    ⟨("test", c2PlanEarly), by decide, rfl⟩

/-- C8: with no in-progress and no complete plan, the selector returns
nothing. -/
theorem c8_selector_none (m : List (String × PlanStatus))
    (h1 : ∀ kp ∈ m, kp.2.Status ≠ ExecutionInProgress)
    (h2 : ∀ kp ∈ m, kp.2.Status ≠ ExecutionComplete) :
    GetLastExecutedPlanStatus m = none := by
  have hfind : (m.map Prod.snd).find?
      (fun p => decide (p.Status = ExecutionInProgress)) = none := by
    apply List.find?_eq_none.mpr
    intro x hx
    obtain ⟨kp, hkp, rfl⟩ := List.mem_map.mp hx
    simp [h1 kp hkp]
  have hpick : pickComplete (m.map Prod.snd) = none := by
    rcases hp : pickComplete (m.map Prod.snd) with _ | b
    · rfl
    · obtain ⟨hbc, hbm, _⟩ := pickComplete_sound _ b hp
      obtain ⟨kp, hkp, rfl⟩ := List.mem_map.mp hbm
      exact absurd hbc (h2 kp hkp)
  simp only [GetLastExecutedPlanStatus, hfind, hpick]

/-- C8 witness: the `no plan ever run` test case and the empty map. -/
theorem c8_witness :
    GetLastExecutedPlanStatus [("test", c8PlanNeverRun)] = none ∧
    GetLastExecutedPlanStatus [] = none :=
  ⟨c8_selector_none _ (by decide) (by decide),
   c8_selector_none [] (by decide) (by decide)⟩

/-- For the two resource-referencing kinds, `validateTask` checks every
referenced resource against the template keys. -/
lemma validateTask_resources (t : Task) (templates : List (String × String))
    (hk : t.Kind = ApplyTaskKind ∨ t.Kind = DeleteTaskKind) :
    validateTask t templates =
      t.Spec.ResourceTaskSpec.Resources.filterMap (fun res =>
        if mapLookup templates res = none then
          some ("task " ++ t.Name ++ " missing template: " ++ res)
        else none) := by
  rcases hk with hk | hk <;> simp [validateTask, hk]

/-- C3: every resource-referencing task's missing template contributes
one violation naming task and template to the aggregated list across
all tasks, `getCRDs` fails exactly when that list is non-empty, and the
single error it fails with joins the whole list. -/
theorem c3_task_validation_aggregated (p : PackageFiles) (op : Operator)
    (ps : List Parameter) (rs : String)
    (hop : p.Operator = some op) (hps : p.Params = some ps) :
    (∀ t ∈ op.Tasks, (t.Kind = ApplyTaskKind ∨ t.Kind = DeleteTaskKind) →
      validateTask t p.Templates =
        t.Spec.ResourceTaskSpec.Resources.filterMap (fun res =>
          if mapLookup p.Templates res = none then
            some ("task " ++ t.Name ++ " missing template: " ++ res)
          else none)) ∧
    (∀ t ∈ op.Tasks, (t.Kind = ApplyTaskKind ∨ t.Kind = DeleteTaskKind) →
      ∀ res ∈ t.Spec.ResourceTaskSpec.Resources, mapLookup p.Templates res = none →
        ("task " ++ t.Name ++ " missing template: " ++ res) ∈
          (op.Tasks.map (fun tt => validateTask tt p.Templates)).flatten) ∧
    (((getCRDs p rs).2).isSome = true ↔
      (op.Tasks.map (fun tt => validateTask tt p.Templates)).flatten ≠ []) ∧
    (∀ msg, (getCRDs p rs).2 = some msg →
      msg = String.intercalate "\n"
        ((op.Tasks.map (fun tt => validateTask tt p.Templates)).flatten)) := by
  refine ⟨?_, ?_, ?_, ?_⟩
  · intro t _ hk
    exact validateTask_resources t p.Templates hk
  · intro t ht hk res hres hmiss
    have hin : ("task " ++ t.Name ++ " missing template: " ++ res) ∈
        validateTask t p.Templates := by
      have harm : ("task " ++ t.Name ++ " missing template: " ++ res) ∈
          t.Spec.ResourceTaskSpec.Resources.filterMap (fun r =>
            if mapLookup p.Templates r = none then
              some ("task " ++ t.Name ++ " missing template: " ++ r)
            else none) :=
        List.mem_filterMap.mpr ⟨res, hres, by rw [if_pos hmiss]⟩
      rw [validateTask_resources t p.Templates hk]
      exact harm
    exact List.mem_flatten.mpr
      ⟨validateTask t p.Templates, List.mem_map.mpr ⟨t, ht, rfl⟩, hin⟩
  · simp only [getCRDs, hop, hps, validate_foldl_eq, List.nil_append]
    by_cases hE : (op.Tasks.map (fun tt => validateTask tt p.Templates)).flatten = []
    · simp [hE]
    · rw [if_pos (fun h0 => hE (List.length_eq_zero.mp h0))]
      simp [hE]
  · intro msg hmsg
    simp only [getCRDs, hop, hps, validate_foldl_eq, List.nil_append] at hmsg
    by_cases hE : (op.Tasks.map (fun tt => validateTask tt p.Templates)).flatten = []
    · simp [hE] at hmsg
    · rw [if_pos (fun h0 => hE (List.length_eq_zero.mp h0))] at hmsg
      exact (Option.some.inj hmsg).symm

/-- C3 witness: two tasks each missing one template — both violations
appear and the compile fails with the single combined error. -/
theorem c3_witness :
    ("task t1 missing template: a.yaml") ∈
      ((c3Pkg.Operator.getD {}).Tasks.map
        (fun tt => validateTask tt c3Pkg.Templates)).flatten ∧
    ("task t2 missing template: b.yaml") ∈
      ((c3Pkg.Operator.getD {}).Tasks.map
        (fun tt => validateTask tt c3Pkg.Templates)).flatten ∧
    (getCRDs c3Pkg "s").2 =
      some "task t1 missing template: a.yaml\ntask t2 missing template: b.yaml" := by
  have h := c3_task_validation_aggregated c3Pkg
    { Name := "op", Tasks := [c3Task1, c3Task2] } [] "s" rfl rfl
  refine ⟨?_, ?_, ?_⟩
  · exact h.2.1 c3Task1 (by decide) (Or.inl rfl) "a.yaml" (by decide) rfl
  · exact h.2.1 c3Task2 (by decide) (Or.inr rfl) "b.yaml" (by decide) rfl
  · have hsome : ((getCRDs c3Pkg "s").2).isSome = true := h.2.2.1.mpr (by decide)
    obtain ⟨msg, hmsg⟩ := Option.isSome_iff_exists.mp hsome
    rw [hmsg, h.2.2.2 msg hmsg]
    decide

/-- The accumulation loop of `mapPaths` in closed form: results are the
successful loads in order, warnings the failed paths in order. -/
lemma mapPaths_foldl (f : String → Except String PackageFilesDigest) :
    ∀ (paths : List String) (acc : List PackageFilesDigest × List String),
      paths.foldl
        (fun (acc : List PackageFilesDigest × List String) path =>
          match f path with
          | .error _ => (acc.1, acc.2 ++ ["WARNING: operator: " ++ path ++ " is invalid"])
          | .ok op => (acc.1 ++ [op], acc.2))
        acc =
      (acc.1 ++ paths.filterMap (fun q =>
         match f q with
         | .ok v => some v
         | .error _ => none),
       acc.2 ++ paths.filterMap (fun q =>
         match f q with
         | .ok _ => none
         | .error _ => some ("WARNING: operator: " ++ q ++ " is invalid"))) := by
  intro paths
  induction paths with
  | nil =>
    intro acc
    simp
  | cons q rest ih =>
    intro acc
    rcases hq : f q with e | v
    · simp [List.foldl_cons, hq, ih]
    · simp [List.foldl_cons, hq, ih]

/-- All-successful loads keep every source. -/
lemma filterMap_ok_length (f : String → Except String PackageFilesDigest) :
    ∀ l : List String, (∀ q ∈ l, ∃ v, f q = .ok v) →
      (l.filterMap (fun q =>
        match f q with
        | .ok v => some v
        | .error _ => none)).length = l.length := by
  intro l
  induction l with
  | nil =>
    intro _
    rfl
  | cons q rest ih =>
    intro h
    obtain ⟨v, hv⟩ := h q (List.mem_cons_self _ _)
    have hrest := ih fun x hx => h x (List.mem_cons_of_mem _ hx)
    simp [hv, hrest]

/-- A failing load produces no result entry, only its warning line. -/
lemma filterMap_warn_nil (f : String → Except String PackageFilesDigest)
    (l : List String) (h : ∀ q ∈ l, ∃ v, f q = .ok v) :
    l.filterMap (fun q =>
      match f q with
      | .ok _ => none
      | .error _ => some ("WARNING: operator: " ++ q ++ " is invalid")) = [] := by
  refine List.filterMap_eq_nil_iff.mpr ?_
  intro q hq
  obtain ⟨v, hv⟩ := h q hq
  simp [hv]

/-- C7: a batch where exactly one source fails yields the successful
loads of the other sources in input order, one warning naming the failed
source, and one fewer result than sources. -/
theorem c7_batch_partial_failure (f : String → Except String PackageFilesDigest)
    (l1 l2 : List String) (bad : String) (e : String)
    (hbad : f bad = .error e)
    (hok : ∀ q ∈ l1 ++ l2, ∃ v, f q = .ok v) :
    mapPaths f (l1 ++ bad :: l2) =
      ((l1 ++ l2).filterMap (fun q =>
         match f q with
         | .ok v => some v
         | .error _ => none),
       ["WARNING: operator: " ++ bad ++ " is invalid"]) ∧
    (mapPaths f (l1 ++ bad :: l2)).1.length = (l1 ++ bad :: l2).length - 1 := by
  have hok1 : ∀ q ∈ l1, ∃ v, f q = .ok v := fun q hq =>
    hok q (List.mem_append_left _ hq)
  have hok2 : ∀ q ∈ l2, ∃ v, f q = .ok v := fun q hq =>
    hok q (List.mem_append_right _ hq)
  have heq : mapPaths f (l1 ++ bad :: l2) =
      ((l1 ++ l2).filterMap (fun q =>
         match f q with
         | .ok v => some v
         | .error _ => none),
       ["WARNING: operator: " ++ bad ++ " is invalid"]) := by
    unfold mapPaths
    rw [mapPaths_foldl]
    simp [List.filterMap_append, hbad, filterMap_warn_nil f l1 hok1,
      filterMap_warn_nil f l2 hok2]
  refine ⟨heq, ?_⟩
  rw [heq]
  have hlen := filterMap_ok_length f (l1 ++ l2) hok
  simp only [hlen]
  simp [List.length_append]

/-- C7 witness: three sources with the middle one failing — two results
in order and one warning. -/
theorem c7_witness :
    mapPaths
      (fun s => if s = "bad" then Except.error "boom"
        else Except.ok ⟨newPackageFiles, s⟩)
      ["g1", "bad", "g2"] =
      ([⟨newPackageFiles, "g1"⟩, ⟨newPackageFiles, "g2"⟩],
       ["WARNING: operator: bad is invalid"]) := by
  have h := c7_batch_partial_failure
    (fun s => if s = "bad" then Except.error "boom"
      else Except.ok ⟨newPackageFiles, s⟩)
    ["g1"] ["g2"] "bad" "boom" rfl ?_
  · exact h.1.trans (by rfl)
  · intro q hq
    simp only [List.cons_append, List.nil_append, List.mem_cons,
      List.not_mem_nil, or_false] at hq
    rcases hq with rfl | rfl
    · exact ⟨⟨newPackageFiles, "g1"⟩, rfl⟩
    · exact ⟨⟨newPackageFiles, "g2"⟩, rfl⟩

/-- The templates-directory marker is ten characters long. -/
lemma templatesMarker_length : templatesMarker.length = 10 := rfl

/-- A hit reported by `goIndex` is an occurrence. -/
lemma goIndex_some_occursAt :
    ∀ (s : List Char) (i : Nat), goIndex templatesMarker s = some i →
      occursAt templatesMarker s i = true := by
  intro s
  induction s with
  | nil =>
    intro i h
    have h0 : goIndex templatesMarker [] = none := rfl
    rw [h0] at h
    exact Option.noConfusion h
  | cons c rest ih =>
    intro i h
    by_cases hpre : templatesMarker.isPrefixOf (c :: rest) = true
    · simp only [goIndex, if_pos hpre] at h
      obtain rfl : (0 : Nat) = i := Option.some.inj h
      simpa [occursAt] using hpre
    · simp only [goIndex, if_neg hpre] at h
      rcases hrest : goIndex templatesMarker rest with _ | j
      · rw [hrest] at h
        exact Option.noConfusion h
      · rw [hrest] at h
        simp only [Option.map_some'] at h
        obtain rfl : j + 1 = i := Option.some.inj h
        simpa [occursAt, List.drop_succ_cons] using ih j hrest

/-- `goIndex` finds an occurrence no later than any given one. -/
lemma occursAt_first :
    ∀ (s : List Char) (j : Nat), occursAt templatesMarker s j = true →
      ∃ i, goIndex templatesMarker s = some i ∧ i ≤ j := by
  intro s
  induction s with
  | nil =>
    intro j h
    simp [occursAt, List.drop_nil] at h
    exact absurd h (by decide)
  | cons c rest ih =>
    intro j h
    by_cases hpre : templatesMarker.isPrefixOf (c :: rest) = true
    · exact ⟨0, by simp [goIndex, hpre], Nat.zero_le j⟩
    · rcases j with _ | j'
      · simp only [occursAt, List.drop_zero] at h
        exact absurd h hpre
      · have h' : occursAt templatesMarker rest j' = true := by
          simpa [occursAt, List.drop_succ_cons] using h
        obtain ⟨i', hi', hle⟩ := ih j' h'
        exact ⟨i' + 1, by simp [goIndex, hpre, hi'], Nat.succ_le_succ hle⟩

/-- The marker designated by a decomposition is an occurrence. -/
lemma occursAt_marker (a b : List Char) :
    occursAt templatesMarker (a ++ templatesMarker ++ b) a.length = true := by
  have hdrop : (a ++ templatesMarker ++ b).drop a.length = templatesMarker ++ b := by
    rw [List.append_assoc, List.drop_left]
  simp only [occursAt, hdrop]
  exact List.isPrefixOf_iff_prefix.mpr (List.prefix_append _ _)

/-- `"templates/"` has no proper border: no non-trivial suffix of it is
also a prefix of it. -/
lemma templatesMarker_no_border :
    ∀ m, m < 10 → 0 < m →
      templatesMarker.drop m ≠ templatesMarker.take (10 - m) := by decide

/-- An occurrence of the marker in `a ++ marker ++ b` starting at or
before the designated one lies entirely inside `a` or is the designated
one: border-freeness rules out an occurrence straddling the boundary. -/
lemma no_crossing (a b : List Char) (i : Nat) (hle : i ≤ a.length)
    (hpre : templatesMarker.isPrefixOf ((a ++ templatesMarker ++ b).drop i) = true) :
    i + 10 ≤ a.length ∨ i = a.length := by
  by_contra hcon
  push_neg at hcon
  obtain ⟨h1, h2⟩ := hcon
  have hilt : i < a.length := lt_of_le_of_ne hle h2
  have hm0 : 0 < a.length - i := by omega
  have hm10 : a.length - i < 10 := by omega
  have hdrop : (a ++ templatesMarker ++ b).drop i = a.drop i ++ (templatesMarker ++ b) := by
    rw [List.append_assoc, List.drop_append_of_le_length hle]
  have hxlen : (a.drop i).length = a.length - i := by
    rw [List.length_drop]
  rw [hdrop] at hpre
  have hprefix : templatesMarker <+: a.drop i ++ (templatesMarker ++ b) :=
    List.isPrefixOf_iff_prefix.mp hpre
  have htake : templatesMarker = (a.drop i ++ (templatesMarker ++ b)).take 10 := by
    have h := List.prefix_iff_eq_take.mp hprefix
    rw [templatesMarker_length] at h
    exact h
  rw [List.take_append_eq_append_take,
    List.take_of_length_le (by omega : (a.drop i).length ≤ 10), hxlen,
    List.take_append_eq_append_take, templatesMarker_length] at htake
  have hz : 10 - (a.length - i) - 10 = 0 := by omega
  rw [hz, List.take_zero, List.append_nil] at htake
  have hdropm := congrArg (List.drop (a.length - i)) htake
  have hdx : (a.drop i ++ templatesMarker.take (10 - (a.length - i))).drop (a.length - i) =
      templatesMarker.take (10 - (a.length - i)) := by
    rw [← hxlen, List.drop_left]
  rw [hdx] at hdropm
  exact templatesMarker_no_border (a.length - i) hm10 hm0 hdropm

/-- Extend marker-freeness below the length bound to all positions. -/
lemma occursAt_all_false (b : List Char)
    (h : ∀ j, j < b.length → occursAt templatesMarker b j = false) :
    ∀ j, occursAt templatesMarker b j = false := by
  intro j
  by_cases hj : j < b.length
  · exact h j hj
  · have hnil : b.drop j = [] := List.drop_eq_nil_of_le (by omega)
    simp only [occursAt, hnil]
    decide

/-- A marker-free list gives `goIndex` nothing to find. -/
lemma goIndex_none (b : List Char)
    (h : ∀ j, occursAt templatesMarker b j = false) :
    goIndex templatesMarker b = none := by
  rcases hgi : goIndex templatesMarker b with _ | i
  · rfl
  · have hocc := goIndex_some_occursAt b i hgi
    rw [h i] at hocc
    exact Bool.noConfusion hocc

/-- Splitting a marker-free list returns it whole. -/
lemma goSplitFuel_no_occ (b : List Char) (fuel : Nat)
    (h : goIndex templatesMarker b = none) :
    goSplitFuel templatesMarker fuel b = [b] := by
  cases fuel with
  | zero => rfl
  | succ f => simp [goSplitFuel, h]

/-- Main induction: with enough fuel, the last piece of the split of
`a ++ marker ++ b` is exactly `b` whenever `b` is marker-free. -/
lemma goSplitFuel_getLastD (n : Nat) :
    ∀ (a b : List Char) (fuel : Nat) (d : List Char),
      a.length ≤ n → a.length + 1 ≤ fuel →
      (∀ j, occursAt templatesMarker b j = false) →
      (goSplitFuel templatesMarker fuel (a ++ templatesMarker ++ b)).getLastD d = b := by
  induction n using Nat.strong_induction_on with
  | _ n ih =>
    intro a b fuel d ha hfuel hnb
    obtain ⟨i, hi, hile⟩ := occursAt_first _ _ (occursAt_marker a b)
    rcases fuel with _ | f
    · omega
    · have hstep : goSplitFuel templatesMarker (f + 1) (a ++ templatesMarker ++ b) =
          (a ++ templatesMarker ++ b).take i ::
            goSplitFuel templatesMarker f
              ((a ++ templatesMarker ++ b).drop (i + templatesMarker.length)) := by
        simp only [goSplitFuel]
        rw [hi]
      rw [hstep, List.getLastD_cons]
      have hpre : templatesMarker.isPrefixOf ((a ++ templatesMarker ++ b).drop i) = true := by
        have hocc := goIndex_some_occursAt _ _ hi
        simpa [occursAt] using hocc
      rcases no_crossing a b i hile hpre with hin | heq
      · have hdrop : (a ++ templatesMarker ++ b).drop (i + templatesMarker.length) =
            a.drop (i + 10) ++ templatesMarker ++ b := by
          rw [templatesMarker_length, List.append_assoc,
            List.drop_append_of_le_length (by omega : i + 10 ≤ a.length), List.append_assoc]
        rw [hdrop]
        exact ih (a.drop (i + 10)).length (by rw [List.length_drop]; omega)
          (a.drop (i + 10)) b f _ le_rfl (by rw [List.length_drop]; omega) hnb
      · subst heq
        have hdrop : (a ++ templatesMarker ++ b).drop (a.length + templatesMarker.length) = b := by
          have hl : (a ++ templatesMarker).length = a.length + templatesMarker.length :=
            List.length_append _ _
          rw [← hl, List.drop_left]
        rw [hdrop, goSplitFuel_no_occ b f (goIndex_none b hnb)]
        rfl

/-- The last piece of `strings.Split` on the marker is the part after
the last occurrence. -/
lemma goSplit_getLastD (a b : List Char)
    (hnb : ∀ j, occursAt templatesMarker b j = false) :
    (goSplit templatesMarker (a ++ templatesMarker ++ b)).getLastD [] = b := by
  unfold goSplit
  exact goSplitFuel_getLastD a.length a b _ [] le_rfl
    (by simp only [List.length_append, templatesMarker_length]; omega) hnb

/-- `templateKey` strips everything up to and including the last
occurrence of the templates-directory marker. -/
lemma templateKey_eq (path : String) (a b : List Char)
    (hpath : path.toList = a ++ templatesMarker ++ b)
    (hnb : ∀ j, j < b.length → occursAt templatesMarker b j = false) :
    templateKey path = b.asString := by
  unfold templateKey
  rw [hpath, goSplit_getLastD a b (occursAt_all_false b hnb)]

/-- A fresh Go map assignment is what a later lookup of the same key
sees. -/
lemma mapLookup_mapInsert (m : List (String × String)) (k v : String) :
    mapLookup (mapInsert m k v) k = some v := by
  induction m with
  | nil => simp [mapInsert, mapLookup]
  | cons kv rest ih =>
    obtain ⟨k', v'⟩ := kv
    by_cases hk : k' = k
    · subst hk
      simp [mapInsert, mapLookup]
    · simp [mapInsert, mapLookup, hk, ih]

/-- C6: a template-classified path's contents are stored under the key
obtained by stripping everything up to and including the last
`templates/` in the path, and a later template file deriving the same
key overwrites the earlier entry. -/
theorem c6_template_key_derivation :
    (∀ (yaml : YamlDecode) (path contents : String) (pkg : PackageFiles) (a b : List Char),
      isOperatorFile path = false → isTemplateFile path = true →
      path.toList = a ++ templatesMarker ++ b →
      (∀ j, j < b.length → occursAt templatesMarker b j = false) →
      parsePackageFile yaml path contents pkg =
        Except.ok { pkg with Templates := mapInsert pkg.Templates b.asString contents }) ∧
    (∀ (yaml : YamlDecode) (p1 p2 c1 c2 : String) (pkg pkg1 pkg2 : PackageFiles),
      isOperatorFile p1 = false → isTemplateFile p1 = true →
      isOperatorFile p2 = false → isTemplateFile p2 = true →
      templateKey p1 = templateKey p2 →
      parsePackageFile yaml p1 c1 pkg = Except.ok pkg1 →
      parsePackageFile yaml p2 c2 pkg1 = Except.ok pkg2 →
      mapLookup pkg2.Templates (templateKey p2) = some c2) := by
  have hbranch : ∀ (yaml : YamlDecode) (path contents : String) (pkg : PackageFiles),
      isOperatorFile path = false → isTemplateFile path = true →
      parsePackageFile yaml path contents pkg =
        Except.ok { pkg with
          Templates := mapInsert pkg.Templates (templateKey path) contents } := by
    intro yaml path contents pkg hop htp
    simp [parsePackageFile, hop, htp]
  constructor
  · intro yaml path contents pkg a b hop htp hpath hnb
    rw [hbranch yaml path contents pkg hop htp, templateKey_eq path a b hpath hnb]
  · intro yaml p1 p2 c1 c2 pkg pkg1 pkg2 hop1 htp1 hop2 htp2 hkey hparse1 hparse2
    rw [hbranch yaml p1 c1 pkg hop1 htp1] at hparse1
    cases hparse1
    rw [hbranch yaml p2 c2 _ hop2 htp2] at hparse2
    cases hparse2
    exact mapLookup_mapInsert _ (templateKey p2) c2

/-- C6 witness: the two round-trip shapes from the spec and a same-key
overwrite. -/
theorem c6_witness :
    parsePackageFile c6Yaml "mypackage/templates/foo.yaml" "data1"
        { Templates := [], Operator := none, Params := none } =
      Except.ok { Templates := [("foo.yaml", "data1")], Operator := none, Params := none } ∧
    parsePackageFile c6Yaml "a/templates/sub/foo.yaml" "data2"
        { Templates := [], Operator := none, Params := none } =
      Except.ok { Templates := [("sub/foo.yaml", "data2")], Operator := none, Params := none } ∧
    mapLookup
      ({ Templates := [("foo.yaml", "two")], Operator := none,
         Params := none } : PackageFiles).Templates
      (templateKey "y/templates/foo.yaml") = some "two" := by
  refine ⟨?_, ?_, ?_⟩
  · exact c6_template_key_derivation.1 c6Yaml "mypackage/templates/foo.yaml" "data1"
      { Templates := [], Operator := none, Params := none }
      "mypackage/".toList "foo.yaml".toList
      (by decide) (by decide) (by decide) (by decide)
  · exact c6_template_key_derivation.1 c6Yaml "a/templates/sub/foo.yaml" "data2"
      { Templates := [], Operator := none, Params := none }
      "a/".toList "sub/foo.yaml".toList
      (by decide) (by decide) (by decide) (by decide)
  · exact c6_template_key_derivation.2 c6Yaml "x/templates/foo.yaml" "y/templates/foo.yaml"
      "one" "two"
      { Templates := [], Operator := none, Params := none }
      { Templates := [("foo.yaml", "one")], Operator := none, Params := none }
      { Templates := [("foo.yaml", "two")], Operator := none, Params := none }
      (by decide) (by decide) (by decide) (by decide) rfl rfl rfl

end Kudo
